import Mathlib

/-!
# writeRecord.c: the record a run of `main` submits to the signal store

A shallow embedding of `src/writeRecord.c`.  `main` parses its options with
`getopt`, then calls `vsi_initialize`, `vsi_core_insert` and `vsi_core_close`.
The embedding takes the sequence of results that `getopt` hands to the loop,
runs the `switch` on each of them, and returns the completion code together
with the store calls `main` makes, in order.

Target: LP64 with the GNU C library: `int` has 32 bits, `long` and `size_t` have
64, and `char` is signed, so that the loop ends when `getopt` returns `-1`.
Output (`printf`, `LOG`, the usage text) is left out.
-/

namespace WriteRecord

/-! ## Machine integers -/

/-- Largest value of a C `int`. -/
def INT_MAX : Nat := 2147483647

/-- Largest value of a C `long`. -/
def LONG_MAX : Int := 9223372036854775807

/-- Smallest value of a C `long`. -/
def LONG_MIN : Int := -9223372036854775808

/-- Conversion of an integer value to `int`: reduction modulo 2^32 into
`[-2^31, 2^31)`. -/
def toInt (x : Int) : Int := (x + 2147483648) % 4294967296 - 2147483648

/-- Conversion of an integer value to an unsigned type of `bits` bits:
reduction modulo `2^bits`. -/
def toUnsigned (bits : Nat) (x : Int) : Nat := (x % (2 ^ bits : Nat)).toNat

/-- Conversion to `unsigned long` (also `size_t`). -/
def toULong (x : Int) : Nat := toUnsigned 64 x

/-- The value of `sizeof(dataValue)`, where `dataValue` is an `unsigned long`. -/
def sizeofDataValue : Nat := 8

/-! ## Platform parameters -/

/-- Byte order of the machine. -/
inductive ByteOrder
  | little
  | big
  deriving DecidableEq, Repr

/-- Modelled from the spec: `domain_t` and `signal_t` are declared in `vsi.h`,
which is not among the sources.  The spec, section 3 and 4.2, has the signal key
as a pair of non-negative integers `(domain, signal)`, so both are taken as
unsigned integer types, of widths left open.  The byte order is the machine's. -/
structure Platform where
  domainBits : Nat
  signalBits : Nat
  byteOrder : ByteOrder
  deriving DecidableEq, Repr

/-- A usual LP64 little-endian machine with 32-bit key types. -/
def lp64 : Platform := ⟨32, 32, ByteOrder.little⟩

/-! ## C strings and the C library -/

/-- The text of a command-line argument, as `optarg` points to it: the bytes
before the terminating zero byte.  The length of an argument is bounded by the
system (`ARG_MAX`), far below `INT_MAX`; the weaker bound is what is recorded. -/
structure CString where
  bytes : List Nat
  isChar : ∀ b ∈ bytes, 0 < b ∧ b < 256
  fits : bytes.length ≤ INT_MAX
  deriving DecidableEq

/-- Number of bytes before the terminating zero byte. -/
def strlen (s : CString) : Nat := s.bytes.length

/-- White space in the C locale and in the usual UTF-8 locales. -/
def isspace (c : Nat) : Bool := c == 32 || (9 ≤ c && c ≤ 13)

/-- Decimal digit characters. -/
def isdigit (c : Nat) : Bool := 48 ≤ c && c ≤ 57

/-- The number spelled by the leading decimal digits of `t`. -/
def digitsValue (t : List Nat) : Nat :=
  (t.takeWhile isdigit).foldl (fun acc c => 10 * acc + (c - 48)) 0

/-- The call `strtol (s, NULL, 10)` of the GNU C library: skip white space, take an
optional sign, read decimal digits, and clamp the result to the range of
`long`. -/
def strtol (s : List Nat) : Int :=
  match s.dropWhile isspace with
  | 45 :: r => max LONG_MIN (-(digitsValue r : Int))
  | 43 :: r => min LONG_MAX (digitsValue r : Int)
  | t => min LONG_MAX (digitsValue t : Int)

/-- The library function `atol`: `strtol (nptr, NULL, 10)`. -/
def atol (s : CString) : Int := strtol s.bytes

/-- The library function `atoi`: `(int) strtol (nptr, NULL, 10)`. -/
def atoi (s : CString) : Int := toInt (strtol s.bytes)

/-- The decimal text of a natural number, as ASCII codes. -/
def decimalText (n : Nat) : List Nat :=
  if n = 0 then [48] else ((Nat.digits 10 n).reverse.map (fun d => d + 48))

/-! ## The option loop of `main` -/

/-- One result of `getopt (argc, argv, "a:d:hs:v:?")` other than `-1`.  The
options `a`, `d`, `s` and `v` come with their argument in `optarg`; `query` is
the character `?`, which `getopt` also returns for an option it does not
know and for a missing argument. -/
inductive Opt
  | a (optarg : CString)
  | d (optarg : CString)
  | h
  | s (optarg : CString)
  | v (optarg : CString)
  | query
  deriving DecidableEq

/-- The options that set a part of the key: `-d` and `-s`. -/
def Opt.isKey : Opt → Bool
  | Opt.d _ => true
  | Opt.s _ => true
  | _ => false

/-- The options that carry a value for one of the variables: `-a`, `-d`, `-s`
and `-v`; the others print the usage text and leave. -/
def Opt.isSetting : Opt → Bool
  | Opt.h => false
  | Opt.query => false
  | _ => true

/-- The local variables of `main` that the option loop sets. -/
structure Vars where
  dataValue : Nat
  dataString : Option CString
  dataLength : Int
  signal : Nat
  domain : Nat
  deriving DecidableEq

/-- The initial values, lines 85 to 89. -/
def initVars : Vars :=
  { dataValue := 0, dataString := none, dataLength := 8, signal := 0, domain := 1 }

/-- The body of the `switch`, lines 94 to 156.  `Except.error c` stands for
`exit (c)`. -/
def switch (P : Platform) (st : Vars) : Opt → Except Int Vars
  | Opt.a optarg =>
      let dataLength := toInt (strlen optarg)
      Except.ok { st with
        dataString := some optarg
        dataLength := if dataLength = 8 then dataLength + 1 else dataLength }
  | Opt.d optarg =>
      Except.ok { st with domain := toUnsigned P.domainBits (atol optarg) }
  | Opt.s optarg =>
      Except.ok { st with signal := toUnsigned P.signalBits (atoi optarg) }
  | Opt.v optarg =>
      Except.ok { st with
        dataValue := toULong (atol optarg)
        dataLength := toInt sizeofDataValue }
  | Opt.h => Except.error 0
  | Opt.query => Except.error 0

/-- The `while` loop of line 92 over the results of `getopt`. -/
def parseOptions (P : Platform) : Vars → List Opt → Except Int Vars
  | st, [] => Except.ok st
  | st, o :: rest =>
      match switch P st o with
      | Except.ok st' => parseOptions P st' rest
      | Except.error c => Except.error c

/-! ## The store calls -/

/-- The `body` argument of `vsi_core_insert`: either `&dataValue` or the pointer
`dataString`, which is `NULL` as long as no `-a` option was seen. -/
inductive Body
  | dataValue (v : Nat)
  | dataString (s : Option CString)
  deriving DecidableEq

/-- A call of the store interface, with its arguments. -/
inductive StoreCall
  | vsi_initialize (createNew : Bool)
  | vsi_core_insert (domain : Nat) (signal : Nat) (length : Int) (body : Body)
  | vsi_core_close
  deriving DecidableEq

/-- Modelled from the spec: the store functions are declared in `vsi.h` and
`vsi_core_api.h`, which are not among the sources.  By the spec, section 6, they
are `initialize(createIfMissing) -> Handle | Error` and
`insert(domain, signal, length, bytes) -> Result`; this records whether each of
the two succeeds in a run. -/
structure StoreResults where
  initializeOk : Bool
  insertOk : Bool

/-- What a run of `main` does: its completion code and its store calls. -/
structure Run where
  exitCode : Int
  calls : List StoreCall
  deriving DecidableEq

/-- The insert call of lines 180 to 187. -/
def insertCall (st : Vars) : StoreCall :=
  if toULong st.dataLength = sizeofDataValue then
    StoreCall.vsi_core_insert st.domain st.signal st.dataLength (Body.dataValue st.dataValue)
  else
    StoreCall.vsi_core_insert st.domain st.signal st.dataLength (Body.dataString st.dataString)

/-- The function `main`.  `opts` is the sequence of results of `getopt`,
`operands` the value of `argc - optind` after the loop, and `store` what the
store functions report.  The return values of the store functions are not
looked at, lines 175 to 195. -/
def main (P : Platform) (opts : List Opt) (operands : Nat) (_store : StoreResults) : Run :=
  match parseOptions P initVars opts with
  | Except.error c => { exitCode := c, calls := [] }
  | Except.ok st =>
      if operands ≠ 0 then
        { exitCode := 255, calls := [] }
      else
        { exitCode := 0
          calls := [ StoreCall.vsi_initialize false, insertCall st, StoreCall.vsi_core_close] }

/-! ## The bytes of a record -/

/-- The object representation of an `unsigned long`, 8 bytes in machine order. -/
def objectBytes (P : Platform) (v : Nat) : List Nat :=
  let le := (List.range 8).map (fun i => v / 256 ^ i % 256)
  match P.byteOrder with
  | ByteOrder.little => le
  | ByteOrder.big => le.reverse

/-- Reading 8 bytes in machine order as an `unsigned long`. -/
def decode (P : Platform) (bs : List Nat) : Nat :=
  let le := match P.byteOrder with
    | ByteOrder.little => bs
    | ByteOrder.big => bs.reverse
  le.foldr (fun b acc => b + 256 * acc) 0

/-- Modelled from the spec: `vsi_core_insert` is not among the sources.  By the
spec, section 3, a record is "a byte sequence of length L plus the sequence
itself": the store takes the `length` bytes that start at `body`.  The result is
`none` where that reaches outside the object `body` points to (outside the 8
bytes of `dataValue`, past the terminating zero byte of the string, or through
a null pointer). -/
def payload (P : Platform) : StoreCall → Option (List Nat)
  | StoreCall.vsi_core_insert _ _ len (Body.dataValue v) =>
      if 0 ≤ len ∧ len ≤ 8 then some ((objectBytes P v).take len.toNat) else none
  | StoreCall.vsi_core_insert _ _ len (Body.dataString (some s)) =>
      if 0 ≤ len ∧ len ≤ (strlen s : Int) + 1 then
        some ((s.bytes ++ [0]).take len.toNat)
      else none
  | _ => none

/-! ## Sample arguments -/

/-- The argument `hello`. -/
def hello : CString := ⟨[104, 101, 108, 108, 111], by decide, by decide⟩

/-- The argument `abcdefgh`, of length 8. -/
def abcdefgh : CString := ⟨[97, 98, 99, 100, 101, 102, 103, 104], by decide, by decide⟩

/-- The argument `3`. -/
def text3 : CString := ⟨[51], by decide, by decide⟩

/-- The argument `5`. -/
def text5 : CString := ⟨[53], by decide, by decide⟩

/-- The argument `7`. -/
def text7 : CString := ⟨[55], by decide, by decide⟩

/-- The argument `42`. -/
def text42 : CString := ⟨[52, 50], by decide, by decide⟩

/-- The argument `9223372036854775808`, the decimal text of 2^63. -/
def text2pow63 : CString :=
  ⟨[57, 50, 50, 51, 51, 55, 50, 48, 51, 54, 56, 53, 52, 55, 55, 53, 56, 48, 56],
    by decide, by decide⟩

/-- A store in which both operations succeed. -/
def storeOk : StoreResults := ⟨true, true⟩

/-- A store that cannot be opened, and whose insert fails too. -/
def storeDown : StoreResults := ⟨false, false⟩

/-- The relation between `dataString` and `dataLength` that the option loop
keeps. -/
def LengthOk (st : Vars) : Prop :=
  st.dataLength = 8 ∨
    ∃ s, st.dataString = some s ∧
      (st.dataLength = (strlen s : Int) ∨ st.dataLength = (strlen s : Int) + 1)

/-! ## Machine integer lemmas -/

theorem toInt_of_le (n : Nat) (h : n ≤ INT_MAX) : toInt (n : Int) = (n : Int) := by
  unfold toInt
  unfold INT_MAX at h
  omega

theorem toInt_strlen (s : CString) : toInt (strlen s : Int) = (strlen s : Int) :=
  toInt_of_le _ s.fits

theorem strlen_le (s : CString) : (strlen s : Int) ≤ 2147483647 := by
  have h := s.fits
  unfold INT_MAX at h
  unfold strlen
  omega

theorem toInt_sizeof : toInt (sizeofDataValue : Int) = 8 := by
  decide

theorem toULong_eq_sizeof_iff (x : Int) (h0 : 0 ≤ x) (h1 : x ≤ 2147483648) :
    toULong x = sizeofDataValue ↔ x = 8 := by
  unfold toULong toUnsigned sizeofDataValue
  norm_num
  omega

/-! ## The option loop -/

theorem lengthOk_init : LengthOk initVars := Or.inl rfl

theorem switch_lengthOk (P : Platform) (st st' : Vars) (o : Opt)
    (h : switch P st o = Except.ok st') (hst : LengthOk st) : LengthOk st' := by
  cases o with
  | a optarg =>
      simp only [switch, Except.ok.injEq] at h
      subst h
      rw [toInt_strlen]
      by_cases h8 : (strlen optarg : Int) = 8
      · exact Or.inr ⟨optarg, rfl, Or.inr (by simp [h8])⟩
      · exact Or.inr ⟨optarg, rfl, Or.inl (by simp [h8])⟩
  | d optarg =>
      simp only [switch, Except.ok.injEq] at h
      subst h
      exact hst
  | s optarg =>
      simp only [switch, Except.ok.injEq] at h
      subst h
      exact hst
  | v optarg =>
      simp only [switch, Except.ok.injEq] at h
      subst h
      exact Or.inl toInt_sizeof
  | h => simp [switch] at h
  | query => simp [switch] at h

theorem parseOptions_lengthOk (P : Platform) (opts : List Opt) :
    ∀ st st' : Vars, parseOptions P st opts = Except.ok st' → LengthOk st → LengthOk st' := by
  induction opts with
  | nil =>
      intro st st' h hst
      simp only [parseOptions, Except.ok.injEq] at h
      subst h
      exact hst
  | cons o rest ih =>
      intro st st' h hst
      simp only [parseOptions] at h
      cases hsw : switch P st o with
      | error c => simp [hsw] at h
      | ok st1 =>
          simp only [hsw] at h
          exact ih st1 st' h (switch_lengthOk P st st1 o hsw hst)

theorem lengthOk_range (st : Vars) (h : LengthOk st) :
    0 ≤ st.dataLength ∧ st.dataLength ≤ 2147483648 := by
  rcases h with h | ⟨s, _, h | h⟩
  · omega
  · have := strlen_le s
    omega
  · have := strlen_le s
    omega

theorem switch_isSetting (P : Platform) (st : Vars) (o : Opt) (h : o.isSetting = true) :
    ∃ st', switch P st o = Except.ok st' := by
  cases o <;> simp [switch, Opt.isSetting] at h ⊢

theorem switch_error (P : Platform) (st : Vars) (o : Opt) (h : o.isSetting = false) :
    switch P st o = Except.error 0 := by
  cases o <;> simp [switch, Opt.isSetting] at h ⊢

theorem parseOptions_isSetting (P : Platform) (opts : List Opt) :
    ∀ st : Vars, (∀ o ∈ opts, o.isSetting = true) →
      ∃ st', parseOptions P st opts = Except.ok st' := by
  induction opts with
  | nil => intro st _; exact ⟨st, rfl⟩
  | cons o rest ih =>
      intro st h
      obtain ⟨st1, h1⟩ := switch_isSetting P st o (h o (List.mem_cons_self _ _))
      obtain ⟨st2, h2⟩ := ih st1 (fun x hx => h x (List.mem_cons_of_mem _ hx))
      exact ⟨st2, by simp [parseOptions, h1, h2]⟩

theorem parseOptions_error (P : Platform) (opts : List Opt) :
    ∀ st : Vars, (∃ o ∈ opts, o.isSetting = false) →
      parseOptions P st opts = Except.error 0 := by
  induction opts with
  | nil => intro st h; simp at h
  | cons o rest ih =>
      intro st h
      by_cases ho : o.isSetting = true
      · obtain ⟨st1, h1⟩ := switch_isSetting P st o ho
        have hrest : ∃ x ∈ rest, x.isSetting = false := by
          obtain ⟨x, hx, hxs⟩ := h
          rcases List.mem_cons.mp hx with rfl | hx
          · simp [ho] at hxs
          · exact ⟨x, hx, hxs⟩
        simp [parseOptions, h1, ih st1 hrest]
      · have ho' : o.isSetting = false := by simpa using ho
        simp [parseOptions, switch_error P st o ho']

/-- The key options leave the value variables alone. -/
theorem parseOptions_isKey (P : Platform) (opts : List Opt) :
    ∀ st : Vars, (∀ o ∈ opts, o.isKey = true) →
      ∃ D S, parseOptions P st opts = Except.ok { st with domain := D, signal := S } := by
  induction opts with
  | nil => intro st _; exact ⟨st.domain, st.signal, rfl⟩
  | cons o rest ih =>
      intro st h
      have ho := h o (List.mem_cons_self _ _)
      have hrest : ∀ x ∈ rest, x.isKey = true := fun x hx => h x (List.mem_cons_of_mem _ hx)
      cases o with
      | d optarg =>
          obtain ⟨D, S, h2⟩ := ih { st with domain := toUnsigned P.domainBits (atol optarg) } hrest
          exact ⟨D, S, by simp [parseOptions, switch, h2]⟩
      | s optarg =>
          obtain ⟨D, S, h2⟩ := ih { st with signal := toUnsigned P.signalBits (atoi optarg) } hrest
          exact ⟨D, S, by simp [parseOptions, switch, h2]⟩
      | a optarg => simp [Opt.isKey] at ho
      | v optarg => simp [Opt.isKey] at ho
      | h => simp [Opt.isKey] at ho
      | query => simp [Opt.isKey] at ho

theorem parseOptions_append (P : Platform) (xs ys : List Opt) :
    ∀ st st1 : Vars, parseOptions P st xs = Except.ok st1 →
      parseOptions P st (xs ++ ys) = parseOptions P st1 ys := by
  induction xs with
  | nil =>
      intro st st1 h
      simp only [parseOptions, Except.ok.injEq] at h
      subst h
      rfl
  | cons o rest ih =>
      intro st st1 h
      simp only [parseOptions, List.cons_append] at h ⊢
      cases hsw : switch P st o with
      | error c => simp [hsw] at h
      | ok st2 =>
          simp only [hsw] at h ⊢
          exact ih st2 st1 h

/-! ## Reading decimal text -/

theorem isdigit_iff (c : Nat) : isdigit c = true ↔ 48 ≤ c ∧ c ≤ 57 := by
  simp [isdigit]

theorem decimalText_isdigit (n : Nat) : ∀ c ∈ decimalText n, isdigit c = true := by
  intro c hc
  rw [isdigit_iff]
  unfold decimalText at hc
  split at hc
  · simp at hc
    omega
  · simp only [List.mem_map, List.mem_reverse] at hc
    obtain ⟨d, hd, rfl⟩ := hc
    have := Nat.digits_lt_base (by norm_num : 1 < 10) hd
    omega

theorem decimalText_cons (n : Nat) : ∃ c r, decimalText n = c :: r := by
  unfold decimalText
  split
  · exact ⟨48, [], rfl⟩
  · next h =>
      have hne : Nat.digits 10 n ≠ [] := Nat.digits_ne_nil_iff_ne_zero.mpr h
      cases hl : ((Nat.digits 10 n).reverse.map (fun d => d + 48)) with
      | nil => simp [hne] at hl
      | cons c r => exact ⟨c, r, rfl⟩

theorem foldl_reverse_digits (l : List Nat) :
    (l.reverse.map (fun d => d + 48)).foldl (fun acc c => 10 * acc + (c - 48)) 0
      = Nat.ofDigits 10 l := by
  induction l with
  | nil => simp
  | cons d l ih =>
      simp only [List.reverse_cons, List.map_append, List.foldl_append, ih, List.map_cons,
        List.map_nil, List.foldl_cons, List.foldl_nil, Nat.ofDigits_cons]
      simp
      omega

theorem digitsValue_decimalText (n : Nat) : digitsValue (decimalText n) = n := by
  unfold digitsValue
  rw [List.takeWhile_eq_self_iff.mpr (decimalText_isdigit n)]
  unfold decimalText
  split
  · next h => simp [h]
  · rw [foldl_reverse_digits, Nat.ofDigits_digits]

theorem strtol_of_digit (c : Nat) (r : List Nat) (hc : isdigit c = true) :
    strtol (c :: r) = min LONG_MAX (digitsValue (c :: r) : Int) := by
  have h1 := (isdigit_iff c).mp hc
  have hsp : ¬ (isspace c = true) := by
    simp [isspace]
    omega
  unfold strtol
  rw [List.dropWhile_cons_of_neg hsp]
  split
  · next r' heq =>
      simp only [List.cons.injEq] at heq
      omega
  · next r' heq =>
      simp only [List.cons.injEq] at heq
      omega
  · rfl

theorem strtol_decimalText (n : Nat) : strtol (decimalText n) = min LONG_MAX (n : Int) := by
  obtain ⟨c, r, h⟩ := decimalText_cons n
  have hc : isdigit c = true := decimalText_isdigit n c (by simp [h])
  have hv := digitsValue_decimalText n
  rw [h] at hv ⊢
  rw [strtol_of_digit c r hc, hv]

theorem atol_decimalText (t : CString) (n : Nat) (ht : t.bytes = decimalText n)
    (hn : n < 9223372036854775808) : atol t = (n : Int) := by
  unfold atol
  rw [ht, strtol_decimalText]
  unfold LONG_MAX
  omega

theorem atoi_decimalText (t : CString) (n : Nat) (ht : t.bytes = decimalText n)
    (hn : n < 2147483648) : atoi t = (n : Int) := by
  unfold atoi
  rw [ht, strtol_decimalText]
  unfold LONG_MAX toInt
  omega

theorem toUnsigned_of_lt (bits n : Nat) (h : n < 2 ^ bits) :
    toUnsigned bits (n : Int) = n := by
  unfold toUnsigned
  rw [← Int.natCast_mod, Int.toNat_natCast, Nat.mod_eq_of_lt h]

/-! ## The bytes of an unsigned long -/

theorem range_eight : List.range 8 = [0, 1, 2, 3, 4, 5, 6, 7] := by
  decide

theorem objectBytes_length (P : Platform) (v : Nat) : (objectBytes P v).length = 8 := by
  unfold objectBytes
  cases P.byteOrder <;> simp

theorem decode_objectBytes (P : Platform) (v : Nat) (hv : v < 18446744073709551616) :
    decode P (objectBytes P v) = v := by
  unfold decode objectBytes
  cases P.byteOrder <;>
    simp only [range_eight, List.map_cons, List.map_nil, List.reverse_reverse, List.foldr_cons,
      List.foldr_nil] <;>
    norm_num <;>
    omega

/-! ## Runs of `main` -/

theorem main_of_ok (P : Platform) (opts : List Opt) (store : StoreResults) (st : Vars)
    (h : parseOptions P initVars opts = Except.ok st) :
    main P opts 0 store =
      { exitCode := 0
        calls := [ StoreCall.vsi_initialize false, insertCall st, StoreCall.vsi_core_close] } := by
  simp [main, h]

theorem main_cases (P : Platform) (opts : List Opt) (operands : Nat) (store : StoreResults) :
    (main P opts operands store).calls = [] ∨
      ∃ st, parseOptions P initVars opts = Except.ok st ∧ LengthOk st ∧ operands = 0 ∧
        main P opts operands store =
          { exitCode := 0
            calls := [ StoreCall.vsi_initialize false, insertCall st,
              StoreCall.vsi_core_close] } := by
  cases hp : parseOptions P initVars opts with
  | error c => left; simp [main, hp]
  | ok st =>
      by_cases h0 : operands = 0
      · right
        subst h0
        exact ⟨st, rfl, parseOptions_lengthOk P opts initVars st hp lengthOk_init, rfl,
          main_of_ok P opts store st hp⟩
      · left
        simp [main, hp, h0]

theorem insertCall_numeric (st : Vars) (h : st.dataLength = 8) :
    insertCall st =
      StoreCall.vsi_core_insert st.domain st.signal 8 (Body.dataValue st.dataValue) := by
  unfold insertCall
  rw [h]
  rfl

theorem insertCall_text (st : Vars) (hok : LengthOk st) (h : st.dataLength ≠ 8) :
    insertCall st =
      StoreCall.vsi_core_insert st.domain st.signal st.dataLength
        (Body.dataString st.dataString) := by
  have hr := lengthOk_range st hok
  unfold insertCall
  rw [if_neg]
  rw [toULong_eq_sizeof_iff st.dataLength hr.1 hr.2]
  exact h

theorem payload_numeric (P : Platform) (D S v : Nat) :
    payload P (StoreCall.vsi_core_insert D S 8 (Body.dataValue v)) = some (objectBytes P v) := by
  have hl := objectBytes_length P v
  simp only [payload]
  rw [if_pos (by omega)]
  congr 1
  apply List.take_of_length_le
  simp [hl]

theorem payload_text (P : Platform) (D S : Nat) (s : CString) :
    payload P (StoreCall.vsi_core_insert D S (strlen s : Int) (Body.dataString (some s)))
      = some s.bytes := by
  simp only [payload]
  rw [if_pos (by omega)]
  simp [strlen]

theorem payload_text_succ (P : Platform) (D S : Nat) (s : CString) :
    payload P (StoreCall.vsi_core_insert D S ((strlen s : Int) + 1) (Body.dataString (some s)))
      = some (s.bytes ++ [0]) := by
  simp only [payload]
  rw [if_pos (by omega)]
  congr 1
  apply List.take_of_length_le
  simp [strlen]

/-- The state after `-a s` among key options. -/
theorem parseOptions_a (P : Platform) (s : CString) (pre post : List Opt)
    (hpre : ∀ o ∈ pre, o.isKey = true) (hpost : ∀ o ∈ post, o.isKey = true) :
    ∃ D S, parseOptions P initVars (pre ++ Opt.a s :: post) = Except.ok
      { dataValue := 0, dataString := some s
        dataLength := if (strlen s : Int) = 8 then 9 else (strlen s : Int)
        signal := S, domain := D } := by
  obtain ⟨D1, S1, h1⟩ := parseOptions_isKey P pre initVars hpre
  rw [parseOptions_append P pre _ initVars _ h1]
  simp only [parseOptions, switch, toInt_strlen]
  obtain ⟨D2, S2, h2⟩ := parseOptions_isKey P post
    { dataValue := 0, dataString := some s
      dataLength := if (strlen s : Int) = 8 then (strlen s : Int) + 1 else (strlen s : Int)
      signal := S1, domain := D1 } hpost
  refine ⟨D2, S2, ?_⟩
  simp only [initVars] at h2 ⊢
  rw [h2]
  by_cases h8 : (strlen s : Int) = 8
  · simp [h8]
  · simp [h8]

/-! ## The length rule -/

/-- C1: whatever options the loop has processed, an insert call of `main` has
length 8 exactly when its buffer is the numeric `dataValue`; a call whose
buffer is `dataString` never has length 8, and neither has the byte sequence
the store takes from it. -/
theorem textual_payload_never_eight (P : Platform) (opts : List Opt) (operands : Nat)
    (store : StoreResults) (D S : Nat) (len : Int) (body : Body)
    (h : StoreCall.vsi_core_insert D S len body ∈ (main P opts operands store).calls) :
    (len = 8 ↔ ∃ v, body = Body.dataValue v) ∧
      (∀ s, body = Body.dataString s → len ≠ 8) ∧
      (∀ bs, payload P (StoreCall.vsi_core_insert D S len body) = some bs →
        (bs.length = 8 ↔ ∃ v, body = Body.dataValue v)) := by
  rcases main_cases P opts operands store with hnil | ⟨st, _, hok, _, hmain⟩
  · rw [hnil] at h
    simp at h
  · rw [hmain] at h
    simp only [List.mem_cons, List.mem_singleton, reduceCtorEq, false_or, or_false,
      List.mem_nil_iff] at h
    have hr := lengthOk_range st hok
    by_cases h8 : st.dataLength = 8
    · rw [insertCall_numeric st h8] at h
      simp only [StoreCall.vsi_core_insert.injEq] at h
      obtain ⟨rfl, rfl, rfl, rfl⟩ := h
      refine ⟨by simp, by simp, ?_⟩
      intro bs hbs
      rw [payload_numeric] at hbs
      simp only [Option.some.injEq] at hbs
      subst hbs
      simp [objectBytes_length]
    · rw [insertCall_text st hok h8] at h
      simp only [StoreCall.vsi_core_insert.injEq] at h
      obtain ⟨rfl, rfl, rfl, rfl⟩ := h
      refine ⟨by simp [h8], fun _ _ => h8, ?_⟩
      intro bs hbs
      have hne : ¬ ∃ v, Body.dataString st.dataString = Body.dataValue v := by simp
      simp only [hne, iff_false]
      cases hds : st.dataString with
      | none => simp [hds, payload] at hbs
      | some s =>
          simp only [hds, payload] at hbs
          split at hbs
          · next hlen =>
              simp only [Option.some.injEq] at hbs
              subst hbs
              simp only [List.length_take, List.length_append, List.length_singleton]
              unfold strlen at hlen
              omega
          · simp at hbs

/-- C2: for a string `s` of a length other than 8, given with `-a` as the only
value option (key options `-d`, `-s` may stand before and after it), `main`
submits the buffer `s` with length `strlen s`, and the bytes the store takes
are exactly the bytes of `s`. -/
theorem string_record_unchanged (P : Platform) (store : StoreResults) (s : CString)
    (pre post : List Opt) (hpre : ∀ o ∈ pre, o.isKey = true)
    (hpost : ∀ o ∈ post, o.isKey = true) (hs : strlen s ≠ 8) :
    ∃ D S,
      (main P (pre ++ Opt.a s :: post) 0 store).calls =
        [ StoreCall.vsi_initialize false,
          StoreCall.vsi_core_insert D S (strlen s : Int) (Body.dataString (some s)),
          StoreCall.vsi_core_close] ∧
      payload P (StoreCall.vsi_core_insert D S (strlen s : Int) (Body.dataString (some s)))
        = some s.bytes := by
  obtain ⟨D, S, hp⟩ := parseOptions_a P s pre post hpre hpost
  have h8 : ¬ ((strlen s : Int) = 8) := by omega
  rw [if_neg h8] at hp
  refine ⟨D, S, ?_, payload_text P D S s⟩
  rw [main_of_ok P _ store _ hp]
  rw [insertCall_text _ (Or.inr ⟨s, rfl, Or.inl rfl⟩) h8]

/-- C3: for a string `s` given with `-a` as the only value option, `main` submits
the buffer `s` with length 9 if `strlen s` is 8 and with length `strlen s`
otherwise; when `strlen s` is 8 the bytes the store takes are the 8 bytes of
`s` followed by the terminating zero byte. -/
theorem eight_byte_string_gets_nine (P : Platform) (store : StoreResults) (s : CString)
    (pre post : List Opt) (hpre : ∀ o ∈ pre, o.isKey = true)
    (hpost : ∀ o ∈ post, o.isKey = true) :
    ∃ D S,
      (main P (pre ++ Opt.a s :: post) 0 store).calls =
        [ StoreCall.vsi_initialize false,
          StoreCall.vsi_core_insert D S (if strlen s = 8 then 9 else (strlen s : Int))
            (Body.dataString (some s)),
          StoreCall.vsi_core_close] ∧
      (strlen s = 8 →
        payload P (StoreCall.vsi_core_insert D S 9 (Body.dataString (some s)))
          = some (s.bytes ++ [0]) ∧
        (s.bytes ++ [0]).take 8 = s.bytes ∧ (s.bytes ++ [0]).length = 9 ∧
        (s.bytes ++ [0]).drop 8 = [0]) := by
  obtain ⟨D, S, hp⟩ := parseOptions_a P s pre post hpre hpost
  refine ⟨D, S, ?_, ?_⟩
  · rw [main_of_ok P _ store _ hp]
    by_cases h8 : strlen s = 8
    · have h8' : (strlen s : Int) = 8 := by omega
      rw [insertCall_text _ (Or.inr ⟨s, rfl, Or.inr (by simp [h8'])⟩) (by simp [h8'])]
      simp [h8, h8']
    · have h8' : ¬ ((strlen s : Int) = 8) := by omega
      rw [insertCall_text _ (Or.inr ⟨s, rfl, Or.inl (by simp [h8'])⟩) (by simp [h8'])]
      simp [h8, h8']
  · intro h8
    have hp9 := payload_text_succ P D S s
    have h9 : (strlen s : Int) + 1 = 9 := by omega
    rw [h9] at hp9
    unfold strlen at h8
    refine ⟨hp9, ?_, by simp [h8], ?_⟩
    · rw [List.take_append_of_le_length (by omega), List.take_of_length_le (by omega)]
    · rw [List.drop_append_of_le_length (by omega), List.drop_of_length_le (by omega)]
      rfl

/-- C5: with key options only (no `-a`, no `-v`), `main` submits the numeric
buffer with value 0 and length 8, and the store takes eight zero bytes; with
no option at all, the key is domain 1 and signal 0. -/
theorem default_record_is_zero (P : Platform) (store : StoreResults) (opts : List Opt)
    (h : ∀ o ∈ opts, o.isKey = true) :
    (∃ D S,
      (main P opts 0 store).calls =
        [ StoreCall.vsi_initialize false,
          StoreCall.vsi_core_insert D S 8 (Body.dataValue 0),
          StoreCall.vsi_core_close] ∧
      payload P (StoreCall.vsi_core_insert D S 8 (Body.dataValue 0))
        = some [0, 0, 0, 0, 0, 0, 0, 0]) ∧
    (main P [] 0 store).calls =
      [ StoreCall.vsi_initialize false,
        StoreCall.vsi_core_insert 1 0 8 (Body.dataValue 0),
        StoreCall.vsi_core_close] := by
  constructor
  · obtain ⟨D, S, hp⟩ := parseOptions_isKey P opts initVars h
    refine ⟨D, S, ?_, ?_⟩
    · rw [main_of_ok P _ store _ hp, insertCall_numeric _ rfl]
      rfl
    · rw [payload_numeric]
      unfold objectBytes
      cases P.byteOrder <;> simp [range_eight]
  · rw [main_of_ok P [] store initVars rfl, insertCall_numeric _ rfl]
    rfl

/-! ## The numeric record -/

/-- C4, as amended: for a value `v` in the range of `long` (below 2^63), a domain
`D` that fits `long` and `domain_t` and a signal `S` that fits `int` and
`signal_t`, the options `-v`, `-d`, `-s` with their decimal texts, in any
order, make `main` submit key `(D, S)` and the numeric buffer holding `v` with
length 8; the store takes the 8 bytes of `v` in machine order, and reading them
back as an `unsigned long` gives `v`. -/
theorem numeric_record_roundtrip (P : Platform) (store : StoreResults) (v D S : Nat)
    (tv td ts : CString) (opts : List Opt)
    (hv : v < 2 ^ 63) (hD : D < 2 ^ 63) (hDt : D < 2 ^ P.domainBits)
    (hS : S < 2 ^ 31) (hSt : S < 2 ^ P.signalBits)
    (htv : tv.bytes = decimalText v) (htd : td.bytes = decimalText D)
    (hts : ts.bytes = decimalText S)
    (hopts : opts.Perm [Opt.v tv, Opt.d td, Opt.s ts]) :
    (main P opts 0 store).calls =
        [ StoreCall.vsi_initialize false,
          StoreCall.vsi_core_insert D S 8 (Body.dataValue v),
          StoreCall.vsi_core_close] ∧
      payload P (StoreCall.vsi_core_insert D S 8 (Body.dataValue v))
        = some (objectBytes P v) ∧
      (objectBytes P v).length = 8 ∧
      decode P (objectBytes P v) = v := by
  have hv' : v < 9223372036854775808 := by
    norm_num at hv
    exact hv
  have hD' : D < 9223372036854775808 := by
    norm_num at hD
    exact hD
  have hS' : S < 2147483648 := by
    norm_num at hS
    exact hS
  have hav : atol tv = (v : Int) := atol_decimalText tv v htv hv'
  have had : atol td = (D : Int) := atol_decimalText td D htd hD'
  have has : atoi ts = (S : Int) := atoi_decimalText ts S hts hS'
  have hvu : toULong (v : Int) = v := toUnsigned_of_lt 64 v (by omega)
  have hDu := toUnsigned_of_lt P.domainBits D hDt
  have hSu := toUnsigned_of_lt P.signalBits S hSt
  have hst : parseOptions P initVars opts = Except.ok
      { dataValue := v, dataString := none, dataLength := 8, signal := S, domain := D } := by
    have hmem := List.mem_permutations'.mpr hopts
    simp only [List.permutations', List.permutations'Aux, List.flatMap_cons, List.flatMap_nil,
      List.map_cons, List.map_nil, List.append_nil, List.cons_append, List.nil_append,
      List.mem_cons, List.mem_singleton, List.mem_nil_iff, or_false] at hmem
    rcases hmem with rfl | rfl | rfl | rfl | rfl | rfl <;>
      simp [parseOptions, switch, initVars, hav, had, has, hvu, hDu, hSu, toInt_sizeof]
  refine ⟨?_, payload_numeric P D S v, objectBytes_length P v,
    decode_objectBytes P v (by omega)⟩
  rw [main_of_ok P opts store _ hst, insertCall_numeric _ rfl]

/-! ## The store calls of a run -/

/-- C8: a run in which every option is one of `-a`, `-d`, `-s`, `-v` and no
operand is left over makes exactly the calls `vsi_initialize (false)`, one
`vsi_core_insert`, `vsi_core_close`, in this order, whatever the store reports
for them; any other run ends during argument handling, with no store call. -/
theorem store_calls_in_order (P : Platform) (opts : List Opt) (operands : Nat)
    (store : StoreResults) :
    (((∀ o ∈ opts, o.isSetting = true) ∧ operands = 0) →
      ∃ D S len body,
        (main P opts operands store).calls =
          [ StoreCall.vsi_initialize false,
            StoreCall.vsi_core_insert D S len body,
            StoreCall.vsi_core_close]) ∧
    (¬ ((∀ o ∈ opts, o.isSetting = true) ∧ operands = 0) →
      (main P opts operands store).calls = []) := by
  constructor
  · rintro ⟨hset, rfl⟩
    obtain ⟨st, hst⟩ := parseOptions_isSetting P opts initVars hset
    rw [main_of_ok P opts store st hst]
    unfold insertCall
    split
    · exact ⟨_, _, _, _, rfl⟩
    · exact ⟨_, _, _, _, rfl⟩
  · intro hnot
    by_cases hset : ∀ o ∈ opts, o.isSetting = true
    · have h0 : operands ≠ 0 := fun h0 => hnot ⟨hset, h0⟩
      obtain ⟨st, hst⟩ := parseOptions_isSetting P opts initVars hset
      simp [main, hst, h0]
    · have hex : ∃ o ∈ opts, o.isSetting = false := by
        simpa using hset
      simp [main, parseOptions_error P opts initVars hex]

/-! ## The invariant of the option loop -/

/-- C10: after any sequence of options that the loop has processed, `dataLength`
is 8, or `dataString` points to a string `s` and `dataLength` is `strlen s` or
`strlen s + 1`.  Hence an insert call with the `dataString` buffer has a
non-null buffer and a length between 0 and `strlen s + 1`, and the bytes the
store takes are all within the object the buffer points to. -/
theorem length_within_string (P : Platform) (opts : List Opt) (st : Vars)
    (h : parseOptions P initVars opts = Except.ok st) :
    (st.dataLength = 8 ∨
      ∃ s, st.dataString = some s ∧
        (st.dataLength = (strlen s : Int) ∨ st.dataLength = (strlen s : Int) + 1)) ∧
    (∀ D S len b, insertCall st = StoreCall.vsi_core_insert D S len (Body.dataString b) →
      ∃ s, b = some s ∧ 0 ≤ len ∧ len ≤ (strlen s : Int) + 1) ∧
    (payload P (insertCall st)).isSome = true := by
  have hok : LengthOk st := parseOptions_lengthOk P opts initVars st h lengthOk_init
  refine ⟨hok, ?_, ?_⟩
  · intro D S len b hcall
    by_cases h8 : st.dataLength = 8
    · rw [insertCall_numeric st h8] at hcall
      simp at hcall
    · rw [insertCall_text st hok h8] at hcall
      simp only [StoreCall.vsi_core_insert.injEq, Body.dataString.injEq] at hcall
      obtain ⟨_, _, rfl, rfl⟩ := hcall
      rcases hok with h8' | ⟨s, hs, hlen⟩
      · exact absurd h8' h8
      · refine ⟨s, hs, ?_⟩
        rcases hlen with hlen | hlen <;> omega
  · by_cases h8 : st.dataLength = 8
    · rw [insertCall_numeric st h8, payload_numeric]
      rfl
    · rw [insertCall_text st hok h8]
      rcases hok with h8' | ⟨s, hs, hlen⟩
      · exact absurd h8' h8
      · rw [hs]
        rcases hlen with hlen | hlen
        · rw [hlen, payload_text]
          rfl
        · rw [hlen, payload_text_succ]
          rfl

/-! ## Runs on concrete inputs -/

/-- C1 at `-v 42 -a abcdefgh`: the insert call has the string buffer and
length 9. -/
theorem textual_payload_never_eight_witness :
    StoreCall.vsi_core_insert 1 0 9 (Body.dataString (some abcdefgh)) ∈
        (main lp64 [Opt.v text42, Opt.a abcdefgh] 0 storeOk).calls ∧
      (((9 : Int) = 8 ↔ ∃ v, Body.dataString (some abcdefgh) = Body.dataValue v) ∧
        (∀ s, Body.dataString (some abcdefgh) = Body.dataString s → (9 : Int) ≠ 8) ∧
        (∀ bs, payload lp64 (StoreCall.vsi_core_insert 1 0 9
            (Body.dataString (some abcdefgh))) = some bs →
          (bs.length = 8 ↔ ∃ v, Body.dataString (some abcdefgh) = Body.dataValue v))) :=
  ⟨by decide,
    textual_payload_never_eight lp64 [Opt.v text42, Opt.a abcdefgh] 0 storeOk 1 0 9
      (Body.dataString (some abcdefgh)) (by decide)⟩

/-- C2 at `-d 3 -a hello -s 7`: the five bytes of `hello` are submitted. -/
theorem string_record_unchanged_witness :
    strlen hello ≠ 8 ∧
      ∃ D S,
        (main lp64 ([Opt.d text3] ++ Opt.a hello :: [Opt.s text7]) 0 storeOk).calls =
          [ StoreCall.vsi_initialize false,
            StoreCall.vsi_core_insert D S (strlen hello : Int) (Body.dataString (some hello)),
            StoreCall.vsi_core_close] ∧
        payload lp64
            (StoreCall.vsi_core_insert D S (strlen hello : Int) (Body.dataString (some hello)))
          = some hello.bytes :=
  ⟨by decide,
    string_record_unchanged lp64 storeOk hello [Opt.d text3] [Opt.s text7]
      (by decide) (by decide) (by decide)⟩

/-- C3 at `-a abcdefgh`: nine bytes are submitted, the last of them zero. -/
theorem eight_byte_string_gets_nine_witness :
    strlen abcdefgh = 8 ∧
      ∃ D S,
        (main lp64 ([] ++ Opt.a abcdefgh :: []) 0 storeOk).calls =
          [ StoreCall.vsi_initialize false,
            StoreCall.vsi_core_insert D S (if strlen abcdefgh = 8 then 9 else (strlen abcdefgh : Int))
              (Body.dataString (some abcdefgh)),
            StoreCall.vsi_core_close] ∧
        (strlen abcdefgh = 8 →
          payload lp64 (StoreCall.vsi_core_insert D S 9 (Body.dataString (some abcdefgh)))
            = some (abcdefgh.bytes ++ [0]) ∧
          (abcdefgh.bytes ++ [0]).take 8 = abcdefgh.bytes ∧
          (abcdefgh.bytes ++ [0]).length = 9 ∧
          (abcdefgh.bytes ++ [0]).drop 8 = [0]) :=
  ⟨by decide,
    eight_byte_string_gets_nine lp64 storeOk abcdefgh [] [] (by decide) (by decide)⟩

/-- C4 at value 42, domain 3, signal 7: key `(3, 7)` and an 8-byte record that
reads back as 42. -/
theorem numeric_record_roundtrip_witness :
    (main lp64 [Opt.v text42, Opt.d text3, Opt.s text7] 0 storeOk).calls =
        [ StoreCall.vsi_initialize false,
          StoreCall.vsi_core_insert 3 7 8 (Body.dataValue 42),
          StoreCall.vsi_core_close] ∧
      payload lp64 (StoreCall.vsi_core_insert 3 7 8 (Body.dataValue 42))
        = some (objectBytes lp64 42) ∧
      (objectBytes lp64 42).length = 8 ∧
      decode lp64 (objectBytes lp64 42) = 42 :=
  numeric_record_roundtrip lp64 storeOk 42 3 7 text42 text3 text7
    [Opt.v text42, Opt.d text3, Opt.s text7]
    (by decide) (by decide) (by decide) (by decide) (by decide)
    (by simp [decimalText, text42]) (by simp [decimalText, text3])
    (by simp [decimalText, text7]) (List.Perm.refl _)

/-- C4 as stated fails at `v = 2^63`: with `-v 9223372036854775808 -d 3 -s 7` the
value parsed by `atol` is `LONG_MAX`, so the record submitted holds 2^63 - 1,
and reading it back does not give 2^63. -/
theorem numeric_value_clamped_at_long_max :
    text2pow63.bytes = decimalText (2 ^ 63) ∧
      text3.bytes = decimalText 3 ∧ text7.bytes = decimalText 7 ∧
      (main lp64 [Opt.v text2pow63, Opt.d text3, Opt.s text7] 0 storeOk).calls =
        [ StoreCall.vsi_initialize false,
          StoreCall.vsi_core_insert 3 7 8 (Body.dataValue (2 ^ 63 - 1)),
          StoreCall.vsi_core_close] ∧
      payload lp64 (StoreCall.vsi_core_insert 3 7 8 (Body.dataValue (2 ^ 63 - 1)))
        = some [255, 255, 255, 255, 255, 255, 255, 127] ∧
      decode lp64 [255, 255, 255, 255, 255, 255, 255, 127] ≠ 2 ^ 63 :=
  ⟨by simp [decimalText, text2pow63], by simp [decimalText, text3],
    by simp [decimalText, text7], by decide, by decide, by decide⟩

/-- C5 at `-d 3 -s 7`: the numeric value 0 is submitted with length 8. -/
theorem default_record_is_zero_witness :
    (∃ D S,
      (main lp64 [Opt.d text3, Opt.s text7] 0 storeOk).calls =
        [ StoreCall.vsi_initialize false,
          StoreCall.vsi_core_insert D S 8 (Body.dataValue 0),
          StoreCall.vsi_core_close] ∧
      payload lp64 (StoreCall.vsi_core_insert D S 8 (Body.dataValue 0))
        = some [0, 0, 0, 0, 0, 0, 0, 0]) ∧
    (main lp64 [] 0 storeOk).calls =
      [ StoreCall.vsi_initialize false,
        StoreCall.vsi_core_insert 1 0 8 (Body.dataValue 0),
        StoreCall.vsi_core_close] :=
  default_record_is_zero lp64 storeOk [Opt.d text3, Opt.s text7] (by decide)

/-- C6: with a store whose initialize and insert both fail, `main` makes its
three store calls and returns 0; and it returns 0 on the default invocation
whatever the store reports. -/
theorem exit_code_zero_when_store_fails :
    storeDown.initializeOk = false ∧ storeDown.insertOk = false ∧
      (main lp64 [] 0 storeDown).exitCode = 0 ∧
      (main lp64 [Opt.v text42, Opt.d text3, Opt.s text7] 0 storeDown).exitCode = 0 ∧
      ∀ store, (main lp64 [] 0 store).exitCode = 0 :=
  ⟨rfl, rfl, by decide, by decide, fun _ => rfl⟩

/-- C7: with a store whose initialize fails, the default invocation still calls
`vsi_core_insert` right after `vsi_initialize`, and returns 0; so it is not
the case that a run in which initialize fails makes no insert call. -/
theorem insert_attempted_after_failed_initialize :
    storeDown.initializeOk = false ∧
      (main lp64 [] 0 storeDown).calls =
        [ StoreCall.vsi_initialize false,
          StoreCall.vsi_core_insert 1 0 8 (Body.dataValue 0),
          StoreCall.vsi_core_close] ∧
      (main lp64 [] 0 storeDown).exitCode = 0 ∧
      ¬ (∀ (P : Platform) (opts : List Opt) (operands : Nat) (store : StoreResults),
          store.initializeOk = false →
            ∀ D S len body,
              StoreCall.vsi_core_insert D S len body ∉ (main P opts operands store).calls) :=
  ⟨rfl, by decide, by decide,
    fun hall => hall lp64 [] 0 storeDown rfl 1 0 8 (Body.dataValue 0) (by decide)⟩

/-- C8 at `-a hello -d 3` with a failing store: initialize, insert, close. -/
theorem store_calls_in_order_witness :
    ((∀ o ∈ [Opt.a hello, Opt.d text3], o.isSetting = true) ∧ (0 : Nat) = 0) ∧
      ∃ D S len body,
        (main lp64 [Opt.a hello, Opt.d text3] 0 storeDown).calls =
          [ StoreCall.vsi_initialize false,
            StoreCall.vsi_core_insert D S len body,
            StoreCall.vsi_core_close] :=
  ⟨⟨by decide, rfl⟩,
    (store_calls_in_order lp64 [Opt.a hello, Opt.d text3] 0 storeDown).1 ⟨by decide, rfl⟩⟩

/-- C9: with `-s 5` and no value option, `main` submits the numeric value 0 under
signal 5, not the value 5. -/
theorem default_value_is_not_the_key :
    (main lp64 [Opt.s text5] 0 storeOk).calls =
        [ StoreCall.vsi_initialize false,
          StoreCall.vsi_core_insert 1 5 8 (Body.dataValue 0),
          StoreCall.vsi_core_close] ∧
      payload lp64 (StoreCall.vsi_core_insert 1 5 8 (Body.dataValue 0))
        = some [0, 0, 0, 0, 0, 0, 0, 0] ∧
      decode lp64 [0, 0, 0, 0, 0, 0, 0, 0] ≠ 5 :=
  ⟨by decide, by decide, by decide⟩

/-- C10 at `-v 42 -a abcdefgh`: the loop ends with the string buffer and
length 9. -/
theorem length_within_string_witness :
    parseOptions lp64 initVars [Opt.v text42, Opt.a abcdefgh] = Except.ok
        { dataValue := 42, dataString := some abcdefgh, dataLength := 9
          signal := 0, domain := 1 } ∧
      (payload lp64 (insertCall
        { dataValue := 42, dataString := some abcdefgh, dataLength := 9
          signal := 0, domain := 1 })).isSome = true :=
  ⟨rfl,
    (length_within_string lp64 [Opt.v text42, Opt.a abcdefgh]
      { dataValue := 42, dataString := some abcdefgh, dataLength := 9
        signal := 0, domain := 1 } rfl).2.2⟩

end WriteRecord
